import Mathlib

/-
Verification development for the fake-news detection pipeline implemented in
`app.py`.

The embedding models strings as `List Char`.  The Python string primitives
used by the code (`str.split()` with no separator, `str.strip()`,
`str.lower()`, `str.upper()`, substring containment via `in`, slicing
`[:4000]`, and `" ".join(...)`) are translated below.  Case mapping is
modelled per character with `Char.toLower` / `Char.toUpper` (basic-latin
case mapping), and whitespace with `Char.isWhitespace`, matching the ASCII
behaviour of the Python operations on the data handled by the program.

External effectful libraries are modelled as explicit oracle parameters:
  * `langdetect.detect`  — a function `List Char → Except Unit (List Char)`
    returning either an ISO-639-1-like code or an exception;
  * the Groq chat completion — `List Char → Except (List Char) (List Char)`
    returning either the response text or an exception message;
  * `requests.get`       — `List Char → Except Unit HttpResponse` keyed by
    the URL, where the response body is carried in already-parsed form (an
    `Html` tree, the output of BeautifulSoup's lenient parser);
  * `cv2.cvtColor` and `pytesseract.image_to_string` — parameters of
    `extract_text_from_image`; the OCR call returns `Except` because
    pytesseract raises on an unreadable input, and the Python function
    installs no exception handler around it.
-/

namespace App

/-- Accumulator-based core of Python `str.split()` with no separator: scan
the characters, collecting the current token in reverse in `acc`; a
whitespace character ends the current token (if any), and tokens are
emitted in order.  Leading, trailing and repeated whitespace produce no
empty tokens, exactly as in Python. -/
def splitWSAux : List Char → List Char → List (List Char)
  | [], acc => if acc = [] then [] else [acc.reverse]
  | c :: cs, acc =>
    if c.isWhitespace then
      if acc = [] then splitWSAux cs []
      else acc.reverse :: splitWSAux cs []
    else splitWSAux cs (c :: acc)

/-- Python `text.split()` (no separator): whitespace-separated tokens. -/
def splitWS (s : List Char) : List (List Char) := splitWSAux s []

/-- Python `str.lstrip()`: drop leading whitespace. -/
def lstripWS (s : List Char) : List Char := s.dropWhile Char.isWhitespace

/-- Python `str.rstrip()`: drop trailing whitespace. -/
def rstripWS (s : List Char) : List Char :=
  (s.reverse.dropWhile Char.isWhitespace).reverse

/-- Python `str.strip()`: drop whitespace at both ends. -/
def pyStrip (s : List Char) : List Char := rstripWS (lstripWS s)

/-- Python `str.lower()`, per-character basic-latin case mapping. -/
def pyLower (s : List Char) : List Char := s.map Char.toLower

/-- Python `str.upper()`, per-character basic-latin case mapping. -/
def pyUpper (s : List Char) : List Char := s.map Char.toUpper

/-- Python `" ".join(ts)`: concatenate the given strings with a single
space between consecutive elements. -/
def joinSpace : List (List Char) → List Char
  | [] => []
  | [t] => t
  | t :: ts => t ++ ' ' :: joinSpace ts

/-- The greeting/filler list of `is_valid_news` (`app.py` line 96). -/
def greetings : List (List Char) :=
  ["hi".toList, "hello".toList, "hey".toList, "ok".toList, "test".toList]

/-- Embedding of `is_valid_news` (`app.py` lines 90–100): strip and
lowercase the text, reject it when it has fewer than 5 whitespace-separated
tokens or equals one of the greeting strings, and accept it otherwise.
The Lean function is pure by construction, as is the Python original (it
only inspects its argument). -/
def is_valid_news (text : List Char) : Bool :=
  let text := pyLower (pyStrip text)
  if (splitWS text).length < 5 then false
  else if text ∈ greetings then false
  else true

/-- Embedding of the dictionary lookup `lang_map.get(lang_code,
lang_code.upper())` (`app.py` lines 109–117). -/
def lang_map_get (code : List Char) : List Char :=
  if code = "en".toList then "English".toList
  else if code = "ta".toList then "Tamil".toList
  else if code = "hi".toList then "Hindi".toList
  else if code = "te".toList then "Telugu".toList
  else if code = "kn".toList then "Kannada".toList
  else if code = "ml".toList then "Malayalam".toList
  else pyUpper code

/-- Embedding of `detect_language_safe` (`app.py` lines 103–119).  The
`langdetect.detect` call is the `detector` oracle; a detector exception is
an `Except.error` value and is mapped to `"Unknown"`, mirroring the bare
`except:` handler.  The length guard returns `"Not enough text"` before
the detector is consulted (the result does not depend on `detector` in
that case). -/
def detect_language_safe (detector : List Char → Except Unit (List Char))
    (text : List Char) : List Char :=
  if (splitWS text).length < 5 then "Not enough text".toList
  else
    match detector text with
    | Except.ok code => lang_map_get code
    | Except.error _ => "Unknown".toList

/-- Binary verdict shown to the user (`fake` / `real` card). -/
inductive Verdict where
  | Real : Verdict
  | Fake : Verdict
deriving DecidableEq

/-- Embedding of the verdict decision `if "FAKE" in result.upper()`
(`app.py` lines 271–274): uppercase the response and test substring
containment of `"FAKE"`. -/
def parse_verdict (result : List Char) : Verdict :=
  if "FAKE".toList <:+: pyUpper result then Verdict.Fake else Verdict.Real

/-- Node of the document tree produced by BeautifulSoup's HTML parser:
either a text node or an element with a tag name and children. -/
inductive Html where
  | text : List Char → Html
  | elem : List Char → List Html → Html

mutual
/-- BeautifulSoup `get_text()` on a single node: concatenation of all text
nodes in document order. -/
def getText : Html → List Char
  | Html.text s => s
  | Html.elem _ children => getTextList children
/-- BeautifulSoup `get_text()` over a list of sibling nodes. -/
def getTextList : List Html → List Char
  | [] => []
  | h :: t => getText h ++ getTextList t
end

mutual
/-- The loop `for tag in soup([...]): tag.decompose()` (`app.py` lines
200–201): remove every element whose tag is in `bad`, together with its
whole subtree. -/
def decomposeTags (bad : List (List Char)) : Html → Option Html
  | Html.text s => some (Html.text s)
  | Html.elem tag children =>
    if tag ∈ bad then none
    else some (Html.elem tag (decomposeTagsList bad children))
/-- `decomposeTags` mapped over sibling nodes, dropping removed ones. -/
def decomposeTagsList (bad : List (List Char)) : List Html → List Html
  | [] => []
  | h :: t =>
    match decomposeTags bad h with
    | none => decomposeTagsList bad t
    | some h' => h' :: decomposeTagsList bad t
end

/-- The tag list removed by `extract_text_from_url` (`app.py` line 200). -/
def badTags : List (List Char) :=
  ["script".toList, "style".toList, "nav".toList, "footer".toList,
   "header".toList]

/-- Model of a `requests` response: the status code and the body in parsed
form (the `Html` tree BeautifulSoup builds from `r.text`). -/
structure HttpResponse where
  status_code : Nat
  body : Html

/-- Embedding of `extract_text_from_url` (`app.py` lines 193–205).  The
`fetch` oracle stands for `requests.get` on the given URL; `Except.error`
is a raised network exception, absorbed by the `try`/`except` into the
empty string.  A non-200 status also yields the empty string.  On success
the bad tags are decomposed, the text is extracted, whitespace runs are
collapsed by `" ".join(text.split())`, and the result is truncated to
4000 characters by `text[:4000]`. -/
def extract_text_from_url (fetch : List Char → Except Unit HttpResponse)
    (url : List Char) : List Char :=
  match fetch url with
  | Except.error _ => []
  | Except.ok r =>
    if r.status_code ≠ 200 then []
    else
      let soup := decomposeTagsList badTags [r.body]
      let text := joinSpace (splitWS (getTextList soup))
      text.take 4000

/-- A NumPy array obtained from a PIL image: `len(img.shape) == 3` is the
`rgb` constructor, `len(img.shape) == 2` the `gray` one. -/
inductive ImgArray where
  | rgb : List (List (Nat × Nat × Nat)) → ImgArray
  | gray : List (List Nat) → ImgArray

/-- The grayscale view computed by lines 188–189 of `app.py`: apply
`cv2.cvtColor(img, cv2.COLOR_RGB2GRAY)` (the `cvtColor` oracle) when the
array has three dimensions, and pass a two-dimensional array through. -/
def toGrayArr (cvtColor : List (List (Nat × Nat × Nat)) → List (List Nat)) :
    ImgArray → List (List Nat)
  | ImgArray.rgb d => cvtColor d
  | ImgArray.gray d => d

/-- Embedding of `extract_text_from_image` (`app.py` lines 187–190).  The
`image_to_string` oracle stands for `pytesseract.image_to_string`, which
raises (returns `Except.error`) on an unreadable input.  The Python
function contains no `try`/`except`, so the oracle's outcome is returned
unchanged: an OCR exception propagates to the caller. -/
def extract_text_from_image
    (cvtColor : List (List (Nat × Nat × Nat)) → List (List Nat))
    (image_to_string : List (List Nat) → Except Unit (List Char))
    (image : ImgArray) : Except Unit (List Char) :=
  image_to_string (toGrayArr cvtColor image)

/-- The text-input strategy (`app.py` lines 218–223): the pasted text is
used as `news_text` unchanged. -/
def extract_text_from_text (text : List Char) : List Char := text

/-- Terminal outcome of one run of the analysis block (`app.py` lines
250–288): the warning-and-stop rejection, a rendered result (language,
verdict badge, explanation), or the API-error state. -/
inductive Outcome where
  | rejectedInvalid : Outcome
  | done : List Char → Verdict → List Char → Outcome
  | failed : List Char → Outcome

/-- Embedding of the analysis block (`app.py` lines 250–288).  When
validation fails the block warns and stops (`rejectedInvalid`) before any
other work.  Otherwise the language is computed, then the Groq call
(`groq` oracle) runs; its exception is caught by the surrounding
`try`/`except` and shown as an API error (`failed`), and on success the
verdict is parsed from the response and the result rendered (`done`). -/
def analyze_block (detector : List Char → Except Unit (List Char))
    (groq : List Char → Except (List Char) (List Char))
    (news_text : List Char) : Outcome :=
  if is_valid_news news_text = false then Outcome.rejectedInvalid
  else
    let lang := detect_language_safe detector news_text
    match groq news_text with
    | Except.error e => Outcome.failed e
    | Except.ok result => Outcome.done lang (parse_verdict result) result

/-- Spec-side predicate for the refinement claim C9, written from the
spec's words rather than from the code: the trimmed text has at least 5
whitespace-separated tokens. -/
def is_valid_simple (text : List Char) : Bool :=
  decide (5 ≤ (splitWS (pyStrip text)).length)

/-- The fixed human-readable language names of the mapping table. -/
def fixedLabels : List (List Char) :=
  ["English".toList, "Tamil".toList, "Hindi".toList, "Telugu".toList,
   "Kannada".toList, "Malayalam".toList]

/-- The concrete test document of the specification's FromURL property:
`<html><script>x</script><p>Hello World</p></html>`. -/
def exampleDoc : Html :=
  Html.elem "html".toList
    [Html.elem "script".toList [Html.text "x".toList],
     Html.elem "p".toList [Html.text "Hello World".toList]]

end App

namespace App

/-- Bridge for `Char.ofNatAux`: its numeric value is the given number. -/
theorem toNat_ofNatAux (n : Nat) (h : n.isValidChar) :
    (Char.ofNatAux n h).toNat = n := by
  simp [Char.ofNatAux, Char.toNat, UInt32.toNat, BitVec.ofNatLt]

/-- Bridge for `Char.ofNat` at valid code points. -/
theorem toNat_ofNat_valid (n : Nat) (h : n.isValidChar) :
    (Char.ofNat n).toNat = n := by
  rw [Char.ofNat, dif_pos h]
  exact toNat_ofNatAux n h

/-- Whitespace in terms of the numeric code point. -/
theorem isWhitespace_iff_toNat (c : Char) :
    c.isWhitespace = true ↔
      c.toNat = 32 ∨ c.toNat = 9 ∨ c.toNat = 13 ∨ c.toNat = 10 := by
  unfold Char.isWhitespace
  constructor
  · intro h
    simp only [Bool.or_eq_true, decide_eq_true_eq] at h
    rcases h with ((h | h) | h) | h <;> subst h <;> simp [Char.toNat]
  · intro h
    simp only [Bool.or_eq_true, decide_eq_true_eq]
    have hv : c = ' ' ∨ c = '\t' ∨ c = '\r' ∨ c = '\n' := by
      rcases h with h | h | h | h
      · exact Or.inl (Char.ext (UInt32.toNat.inj h))
      · exact Or.inr (Or.inl (Char.ext (UInt32.toNat.inj h)))
      · exact Or.inr (Or.inr (Or.inl (Char.ext (UInt32.toNat.inj h))))
      · exact Or.inr (Or.inr (Or.inr (Char.ext (UInt32.toNat.inj h))))
    tauto

/-- Lowercasing does not change whether a character is whitespace. -/
theorem toLower_isWhitespace (c : Char) :
    (Char.toLower c).isWhitespace = c.isWhitespace := by
  unfold Char.toLower
  by_cases h : c.toNat >= 65 ∧ c.toNat <= 90
  · rw [if_pos h]
    have h1 : (Char.ofNat (c.toNat + 32)).toNat = c.toNat + 32 :=
      toNat_ofNat_valid _ (Or.inl (by omega))
    have h2 : (Char.ofNat (c.toNat + 32)).isWhitespace = false := by
      rw [Bool.eq_false_iff]
      intro hw
      rw [isWhitespace_iff_toNat] at hw
      omega
    have h3 : c.isWhitespace = false := by
      rw [Bool.eq_false_iff]
      intro hw
      rw [isWhitespace_iff_toNat] at hw
      omega
    rw [h2, h3]
  · rw [if_neg h]

/-- Basic-latin uppercasing never yields the lowercase letter `o`. -/
theorem toUpper_ne_o (c : Char) : Char.toUpper c ≠ 'o' := by
  intro h
  have hn : (Char.toUpper c).toNat ≠ 111 := by
    unfold Char.toUpper
    by_cases hc : c.toNat >= 97 ∧ c.toNat <= 122
    · rw [if_pos hc]
      have h1 : (Char.ofNat (c.toNat - 32)).toNat = c.toNat - 32 :=
        toNat_ofNat_valid _ (Or.inl (by omega))
      omega
    · rw [if_neg hc]
      intro hx
      exact hc (by omega)
  rw [h] at hn
  exact hn rfl

/-- Tokenisation commutes with per-character lowercasing. -/
theorem splitWSAux_map_toLower (s : List Char) :
    ∀ acc : List Char,
      splitWSAux (s.map Char.toLower) (acc.map Char.toLower) =
        (splitWSAux s acc).map (List.map Char.toLower) := by
  induction s with
  | nil =>
    intro acc
    cases acc with
    | nil => simp [splitWSAux]
    | cons a as => simp [splitWSAux, List.map_reverse]
  | cons c cs ih =>
    intro acc
    simp only [List.map_cons, splitWSAux, toLower_isWhitespace]
    by_cases hw : c.isWhitespace = true
    · rw [hw]
      simp only [if_true]
      cases acc with
      | nil =>
        simp only [List.map_nil, if_pos rfl]
        exact ih []
      | cons a as =>
        have hne : (a :: as).map Char.toLower ≠ [] := by simp
        rw [if_neg hne, if_neg (by simp : (a :: as) ≠ [])]
        have h0 := ih []
        simp only [List.map_nil] at h0
        simp only [List.map_cons, h0, List.map_reverse]
    · rw [if_neg hw, if_neg hw]
      exact ih (c :: acc)

/-- Token lists of the lowercased and of the original string correspond
elementwise. -/
theorem splitWS_pyLower (s : List Char) :
    splitWS (pyLower s) = (splitWS s).map (List.map Char.toLower) := by
  have := splitWSAux_map_toLower s []
  simpa [splitWS, pyLower] using this

/-- Token count is invariant under lowercasing. -/
theorem length_splitWS_pyLower (s : List Char) :
    (splitWS (pyLower s)).length = (splitWS s).length := by
  rw [splitWS_pyLower, List.length_map]

end App

namespace App

/-- Scanning a whitespace-only string just flushes the accumulator. -/
theorem splitWSAux_all_ws (w : List Char)
    (hw : ∀ c ∈ w, c.isWhitespace = true) :
    ∀ acc : List Char, splitWSAux w acc = if acc = [] then [] else [acc.reverse] := by
  induction w with
  | nil => intro acc; rfl
  | cons c cs ih =>
    intro acc
    have hc : c.isWhitespace = true := hw c (List.mem_cons_self c cs)
    have hcs : ∀ x ∈ cs, x.isWhitespace = true :=
      fun x hx => hw x (List.mem_cons_of_mem c hx)
    show (if c.isWhitespace = true then _ else _) = _
    rw [if_pos hc]
    by_cases ha : acc = []
    · rw [if_pos ha, if_pos ha]
      rw [ih hcs []]
      rfl
    · rw [if_neg ha, if_neg ha]
      rw [ih hcs []]
      rfl

/-- Unfolding equation of `splitWSAux` on a cons cell. -/
theorem splitWSAux_cons (c : Char) (cs acc : List Char) :
    splitWSAux (c :: cs) acc =
      if c.isWhitespace = true then
        if acc = [] then splitWSAux cs [] else acc.reverse :: splitWSAux cs []
      else splitWSAux cs (c :: acc) := rfl

/-- Appending trailing whitespace does not change the token scan. -/
theorem splitWSAux_append_ws (w : List Char)
    (hw : ∀ c ∈ w, c.isWhitespace = true) (s : List Char) :
    ∀ acc : List Char, splitWSAux (s ++ w) acc = splitWSAux s acc := by
  induction s with
  | nil =>
    intro acc
    rw [List.nil_append, splitWSAux_all_ws w hw acc]
    rfl
  | cons c cs ih =>
    intro acc
    rw [List.cons_append, splitWSAux_cons, splitWSAux_cons]
    by_cases hc : c.isWhitespace = true
    · rw [if_pos hc, if_pos hc]
      by_cases ha : acc = []
      · rw [if_pos ha, if_pos ha, ih []]
      · rw [if_neg ha, if_neg ha, ih []]
    · rw [if_neg hc, if_neg hc, ih (c :: acc)]

/-- Dropping leading whitespace does not change the tokens. -/
theorem splitWS_lstripWS (s : List Char) : splitWS (lstripWS s) = splitWS s := by
  unfold lstripWS
  induction s with
  | nil => rfl
  | cons c cs ih =>
    by_cases hc : c.isWhitespace = true
    · rw [List.dropWhile_cons_of_pos hc]
      unfold splitWS
      rw [splitWSAux_cons, if_pos hc, if_pos rfl]
      exact ih
    · rw [List.dropWhile_cons_of_neg (by simp [hc])]

/-- Dropping trailing whitespace does not change the tokens. -/
theorem splitWS_rstripWS (s : List Char) : splitWS (rstripWS s) = splitWS s := by
  have hdec : s = rstripWS s ++ (s.reverse.takeWhile Char.isWhitespace).reverse := by
    unfold rstripWS
    rw [← List.reverse_append, List.takeWhile_append_dropWhile, List.reverse_reverse]
  have hws : ∀ c ∈ (s.reverse.takeWhile Char.isWhitespace).reverse, c.isWhitespace = true := by
    intro c hc
    rw [List.mem_reverse] at hc
    exact List.mem_takeWhile_imp hc
  conv_rhs => rw [hdec]
  unfold splitWS
  rw [splitWSAux_append_ws _ hws (rstripWS s) []]

/-- Stripping both ends does not change the tokens (hence their count). -/
theorem splitWS_pyStrip (s : List Char) : splitWS (pyStrip s) = splitWS s := by
  unfold pyStrip
  rw [splitWS_rstripWS, splitWS_lstripWS]

/-- Tokens produced by the scan are nonempty and whitespace-free, given a
whitespace-free accumulator. -/
theorem splitWSAux_tokens (s : List Char) :
    ∀ acc : List Char, (∀ c ∈ acc, c.isWhitespace = false) →
      ∀ tok ∈ splitWSAux s acc, tok ≠ [] ∧ ∀ c ∈ tok, c.isWhitespace = false := by
  induction s with
  | nil =>
    intro acc hacc tok htok
    unfold splitWSAux at htok
    by_cases ha : acc = []
    · rw [if_pos ha] at htok
      exact absurd htok (List.not_mem_nil tok)
    · rw [if_neg ha] at htok
      rcases List.mem_singleton.mp htok with rfl
      refine ⟨by simpa using ha, ?_⟩
      intro c hc
      exact hacc c (List.mem_reverse.mp hc)
  | cons c cs ih =>
    intro acc hacc tok htok
    have hunf : splitWSAux (c :: cs) acc =
        if c.isWhitespace = true then
          if acc = [] then splitWSAux cs []
          else acc.reverse :: splitWSAux cs []
        else splitWSAux cs (c :: acc) := rfl
    rw [hunf] at htok
    by_cases hc : c.isWhitespace = true
    · rw [if_pos hc] at htok
      by_cases ha : acc = []
      · rw [if_pos ha] at htok
        exact ih [] (by intro x hx; exact absurd hx (List.not_mem_nil x)) tok htok
      · rw [if_neg ha] at htok
        rcases List.mem_cons.mp htok with rfl | htok2
        · refine ⟨by simpa using ha, ?_⟩
          intro x hx
          exact hacc x (List.mem_reverse.mp hx)
        · exact ih [] (by intro x hx; exact absurd hx (List.not_mem_nil x)) tok htok2
    · rw [if_neg hc] at htok
      refine ih (c :: acc) ?_ tok htok
      intro x hx
      rcases List.mem_cons.mp hx with rfl | hx2
      · exact Bool.eq_false_iff.mpr hc
      · exact hacc x hx2

/-- Tokens of `splitWS` are nonempty and contain no whitespace. -/
theorem splitWS_tokens (s : List Char) :
    ∀ tok ∈ splitWS s, tok ≠ [] ∧ ∀ c ∈ tok, c.isWhitespace = false :=
  splitWSAux_tokens s [] (by intro x hx; exact absurd hx (List.not_mem_nil x))

end App

namespace App

/-- Adjacent-character property used to express that whitespace runs have
been collapsed: no two consecutive characters are both whitespace. -/
def notBothWS (a b : Char) : Prop :=
  ¬(a.isWhitespace = true ∧ b.isWhitespace = true)

/-- Characters of a space-join come from a token or are the separator. -/
theorem mem_joinSpace (c : Char) :
    ∀ ts : List (List Char), c ∈ joinSpace ts → c = ' ' ∨ ∃ t ∈ ts, c ∈ t
  | [] => by
    intro h
    exact absurd h (List.not_mem_nil c)
  | [t] => by
    intro h
    exact Or.inr ⟨t, List.mem_singleton.mpr rfl, h⟩
  | t :: t' :: ts => by
    intro h
    have hu : joinSpace (t :: t' :: ts) = t ++ ' ' :: joinSpace (t' :: ts) := rfl
    rw [hu] at h
    rcases List.mem_append.mp h with h1 | h2
    · exact Or.inr ⟨t, List.mem_cons_self t _, h1⟩
    · rcases List.mem_cons.mp h2 with rfl | h3
      · exact Or.inl rfl
      · rcases mem_joinSpace c (t' :: ts) h3 with h4 | ⟨u, hu2, hc⟩
        · exact Or.inl h4
        · exact Or.inr ⟨u, List.mem_cons_of_mem _ hu2, hc⟩

/-- A whitespace-free string trivially has no two adjacent whitespace
characters. -/
theorem chain'_of_wsfree :
    ∀ l : List Char, (∀ c ∈ l, c.isWhitespace = false) →
      List.Chain' notBothWS l := by
  intro l
  induction l with
  | nil => intro _; exact List.chain'_nil
  | cons c rest ih =>
    intro h
    refine List.chain'_cons'.mpr ⟨?_, ih fun x hx => h x (List.mem_cons_of_mem c hx)⟩
    intro y _ hy
    have := h c (List.mem_cons_self c rest)
    rw [this] at hy
    exact absurd hy.1 (by simp)

/-- Head of a space-join of a nonempty first token. -/
theorem head?_joinSpace (t : List Char) (ts : List (List Char)) (ht : t ≠ []) :
    (joinSpace (t :: ts)).head? = t.head? := by
  cases ts with
  | nil => rfl
  | cons t' ts =>
    cases t with
    | nil => exact absurd rfl ht
    | cons a as => rfl

/-- Joining nonempty whitespace-free tokens with single spaces yields a
string with no two adjacent whitespace characters. -/
theorem chain'_joinSpace :
    ∀ ts : List (List Char),
      (∀ t ∈ ts, t ≠ [] ∧ ∀ c ∈ t, c.isWhitespace = false) →
      List.Chain' notBothWS (joinSpace ts)
  | [] => by
    intro _
    exact List.chain'_nil
  | [t] => by
    intro h
    exact chain'_of_wsfree t (h t (List.mem_singleton.mpr rfl)).2
  | t :: t' :: ts => by
    intro h
    have hu : joinSpace (t :: t' :: ts) = t ++ ' ' :: joinSpace (t' :: ts) := rfl
    rw [hu, List.chain'_append]
    have ht := h t (List.mem_cons_self t _)
    have ht' := h t' (List.mem_cons_of_mem t (List.mem_cons_self t' ts))
    refine ⟨chain'_of_wsfree t ht.2, ?_, ?_⟩
    · refine List.chain'_cons'.mpr ⟨?_, ?_⟩
      · intro y hy
        rw [head?_joinSpace t' ts ht'.1] at hy
        have hyt : y ∈ t' := List.mem_of_mem_head? hy
        intro hcontra
        have := ht'.2 y hyt
        rw [this] at hcontra
        exact absurd hcontra.2 (by simp)
      · exact chain'_joinSpace (t' :: ts)
          (fun u hu2 => h u (List.mem_cons_of_mem t hu2))
    · intro x hx y hy
      have hxt : x ∈ t := List.mem_of_mem_getLast? hx
      intro hcontra
      have := ht.2 x hxt
      rw [this] at hcontra
      exact absurd hcontra.1 (by simp)

end App

namespace App

/-- Every greeting string is a single token. -/
theorem greetings_token_count : ∀ g ∈ greetings, (splitWS g).length = 1 := by
  decide

/-- A text whose stripped lowercased form is a greeting has exactly one
token. -/
theorem length_one_of_greeting (text : List Char)
    (hg : pyLower (pyStrip text) ∈ greetings) :
    (splitWS (pyStrip text)).length = 1 := by
  have h1 : (splitWS (pyLower (pyStrip text))).length =
      (splitWS (pyStrip text)).length := length_splitWS_pyLower _
  have h2 : (splitWS (pyLower (pyStrip text))).length = 1 := by
    simp only [greetings, List.mem_cons, List.not_mem_nil, or_false] at hg
    rcases hg with h | h | h | h | h <;> rw [h] <;> decide
  omega

/-- Validation succeeds exactly on texts with at least five tokens. -/
theorem is_valid_news_iff (text : List Char) :
    is_valid_news text = true ↔ 5 ≤ (splitWS (pyStrip text)).length := by
  unfold is_valid_news
  have hlen : (splitWS (pyLower (pyStrip text))).length =
      (splitWS (pyStrip text)).length := length_splitWS_pyLower _
  by_cases h5 : (splitWS (pyLower (pyStrip text))).length < 5
  · simp only [if_pos h5]
    constructor
    · intro h
      exact absurd h (by simp)
    · intro h
      omega
  · simp only [if_neg h5]
    by_cases hg : pyLower (pyStrip text) ∈ greetings
    · exfalso
      have := greetings_token_count _ hg
      omega
    · simp only [if_neg hg]
      constructor
      · intro _
        omega
      · intro _
        trivial

end App

namespace App

/-- C2: `is_valid_news` returns false exactly when the trimmed text has
fewer than 5 whitespace-separated tokens or the lowercased trimmed text
equals one of the greeting strings {"hi","hello","hey","ok","test"}.  The
function is pure by construction (a Lean function of the string alone,
like the Python original). -/
theorem is_valid_news_false_iff (text : List Char) :
    is_valid_news text = false ↔
      ((splitWS (pyStrip text)).length < 5 ∨
        pyLower (pyStrip text) ∈ greetings) := by
  constructor
  · intro hf
    left
    have : ¬ is_valid_news text = true := by
      rw [hf]
      simp
    have h5 : ¬ 5 ≤ (splitWS (pyStrip text)).length :=
      fun h => this ((is_valid_news_iff text).mpr h)
    omega
  · intro hor
    have hlt : (splitWS (pyStrip text)).length < 5 := by
      rcases hor with h | h
      · exact h
      · have := length_one_of_greeting text h
        omega
    rw [Bool.eq_false_iff]
    intro ht
    have := (is_valid_news_iff text).mp ht
    omega

/-- C9: the greeting check of `is_valid_news` never decides the result —
the function is extensionally equal to the spec-side predicate
`is_valid_simple` ("the trimmed text has at least 5 tokens"), because
every greeting is a single token and is already rejected by the token
count. -/
theorem is_valid_news_eq_simple (text : List Char) :
    is_valid_news text = is_valid_simple text := by
  unfold is_valid_simple
  by_cases h : 5 ≤ (splitWS (pyStrip text)).length
  · rw [decide_eq_true h]
    exact (is_valid_news_iff text).mpr h
  · rw [decide_eq_false h]
    rw [Bool.eq_false_iff]
    intro ht
    exact h ((is_valid_news_iff text).mp ht)

/-- C4: on any text with fewer than five whitespace-separated tokens,
`detect_language_safe` returns `"Not enough text"` (a label distinct from
`"Unknown"`) for every detector — the quantification over all detectors
expresses that the statistical detector is not consulted. -/
theorem detect_language_insufficient (text : List Char)
    (h : (splitWS text).length < 5) :
    (∀ detector, detect_language_safe detector text = "Not enough text".toList) ∧
      "Not enough text".toList ≠ "Unknown".toList := by
  refine ⟨?_, by decide⟩
  intro detector
  unfold detect_language_safe
  rw [if_pos h]

/-- Witness for C4 at the three-token string "just a test". -/
theorem detect_language_insufficient_witness :
    detect_language_safe (fun _ => Except.ok "en".toList)
      "just a test".toList = "Not enough text".toList :=
  (detect_language_insufficient "just a test".toList (by decide)).1 _

/-- The mapping table yields a fixed name or the uppercased code. -/
theorem lang_map_get_cases (code : List Char) :
    lang_map_get code ∈ fixedLabels ∨ lang_map_get code = pyUpper code := by
  unfold lang_map_get
  split_ifs <;> first | exact Or.inl (by decide) | exact Or.inr rfl

/-- C3: `detect_language_safe` is a total function: for every detector
oracle and every string it returns a plain string (the Lean codomain is
not `Except`, mirroring that the bare `except:` absorbs every detector
exception), the returned value always lies in the fixed label set
(insufficient-text, unknown, a mapped language name, or the uppercased
detector code), and a detector exception yields the insufficient-text or
unknown label. -/
theorem detect_language_total (detector : List Char → Except Unit (List Char))
    (text : List Char) :
    (detect_language_safe detector text = "Not enough text".toList ∨
      detect_language_safe detector text = "Unknown".toList ∨
      detect_language_safe detector text ∈ fixedLabels ∨
      ∃ code, detector text = Except.ok code ∧
        detect_language_safe detector text = pyUpper code) ∧
    (∀ e, detector text = Except.error e →
      detect_language_safe detector text = "Not enough text".toList ∨
        detect_language_safe detector text = "Unknown".toList) := by
  constructor
  · unfold detect_language_safe
    by_cases h5 : (splitWS text).length < 5
    · rw [if_pos h5]
      exact Or.inl rfl
    · rw [if_neg h5]
      cases hdet : detector text with
      | error e => exact Or.inr (Or.inl rfl)
      | ok code =>
        show lang_map_get code = "Not enough text".toList ∨
          lang_map_get code = "Unknown".toList ∨
          lang_map_get code ∈ fixedLabels ∨
          ∃ c2, Except.ok code = Except.ok c2 ∧ lang_map_get code = pyUpper c2
        rcases lang_map_get_cases code with h | h
        · exact Or.inr (Or.inr (Or.inl h))
        · exact Or.inr (Or.inr (Or.inr ⟨code, rfl, h⟩))
  · intro e he
    unfold detect_language_safe
    by_cases h5 : (splitWS text).length < 5
    · rw [if_pos h5]
      exact Or.inl rfl
    · rw [if_neg h5]
      rw [he]
      exact Or.inr rfl

/-- Witness for C3: a raising detector on a five-token string is absorbed
into a fixed label. -/
theorem detect_language_total_witness :
    detect_language_safe (fun _ => Except.error ())
        "one two three four five".toList = "Not enough text".toList ∨
      detect_language_safe (fun _ => Except.error ())
        "one two three four five".toList = "Unknown".toList :=
  (detect_language_total (fun _ => Except.error ())
    "one two three four five".toList).2 () rfl

end App

namespace App

/-- C1: the verdict parsed from a service response is `Fake` exactly when
some substring of the response uppercases to `"FAKE"` (case-insensitive
containment of the token), and `Real` exactly when no such substring
exists. -/
theorem parse_verdict_iff (r : List Char) :
    (parse_verdict r = Verdict.Fake ↔
      ∃ l, l <:+: r ∧ pyUpper l = "FAKE".toList) ∧
    (parse_verdict r = Verdict.Real ↔
      ¬∃ l, l <:+: r ∧ pyUpper l = "FAKE".toList) := by
  have hmain : parse_verdict r = Verdict.Fake ↔
      ∃ l, l <:+: r ∧ pyUpper l = "FAKE".toList := by
    unfold parse_verdict pyUpper
    by_cases h : "FAKE".toList <:+: List.map Char.toUpper r
    · rw [if_pos h]
      simp only [true_iff]
      obtain ⟨s, t, hst⟩ := h
      rcases List.map_eq_append_iff.mp hst.symm with ⟨s', rest, hr, hs, hrest⟩
      rcases List.map_eq_append_iff.mp hs with ⟨u, m, hs2, hu, hm⟩
      exact ⟨m, ⟨u, rest, by rw [hr, hs2, List.append_assoc]⟩, hm⟩
    · rw [if_neg h]
      constructor
      · intro hc
        exact absurd hc (by simp)
      · rintro ⟨l, ⟨s, t, hst⟩, hl⟩
        exact absurd ⟨List.map Char.toUpper s, List.map Char.toUpper t, by
          rw [← hst]
          simp [hl]⟩ h
  refine ⟨hmain, ?_⟩
  have hdich : parse_verdict r = Verdict.Real ↔ ¬ parse_verdict r = Verdict.Fake := by
    unfold parse_verdict
    split_ifs <;> simp
  rw [hdich, hmain]

/-- C8: when validation fails, the analysis block terminates in the
rejected-invalid outcome for every detector and every service oracle (so
neither is consulted), and that outcome is distinct from the `failed`
error state. -/
theorem invalid_input_rejected (text : List Char)
    (h : is_valid_news text = false) :
    (∀ detector groq, analyze_block detector groq text = Outcome.rejectedInvalid) ∧
      ∀ e, Outcome.rejectedInvalid ≠ Outcome.failed e := by
  refine ⟨?_, fun e h' => Outcome.noConfusion h'⟩
  intro detector groq
  unfold analyze_block
  rw [if_pos h]

/-- Witness for C8: the plain-text input "hello" is rejected. -/
theorem invalid_input_rejected_witness :
    analyze_block (fun _ => Except.ok "en".toList)
      (fun _ => Except.ok "REAL".toList) "hello".toList =
      Outcome.rejectedInvalid :=
  (invalid_input_rejected "hello".toList (by decide)).1 _ _

/-- The mapping table never returns the insufficient-text label. -/
theorem lang_map_get_ne_insufficient (code : List Char) :
    lang_map_get code ≠ "Not enough text".toList := by
  unfold lang_map_get
  split_ifs <;> try decide
  intro hcon
  unfold pyUpper at hcon
  cases code with
  | nil => exact List.noConfusion hcon
  | cons c0 rest =>
    cases rest with
    | nil =>
      injection hcon with h1 h2
      exact List.noConfusion h2
    | cons c1 rest2 =>
      injection hcon with h1 h2
      injection h2 with h3 h4
      exact toUpper_ne_o c1 h3

/-- Past the length guard, the language label is never the
insufficient-text label. -/
theorem detect_language_ne_insufficient
    (detector : List Char → Except Unit (List Char)) (text : List Char)
    (h5 : ¬ (splitWS text).length < 5) :
    detect_language_safe detector text ≠ "Not enough text".toList := by
  unfold detect_language_safe
  rw [if_neg h5]
  cases hdet : detector text with
  | error e =>
    show "Unknown".toList ≠ "Not enough text".toList
    decide
  | ok code =>
    show lang_map_get code ≠ "Not enough text".toList
    exact lang_map_get_ne_insufficient code

/-- C10: any result the analysis block renders carries a language label
other than the insufficient-text label: text that passed validation has
at least five tokens, so the language-detection guard cannot fire. -/
theorem done_language_not_insufficient
    (detector : List Char → Except Unit (List Char))
    (groq : List Char → Except (List Char) (List Char))
    (text lang : List Char) (v : Verdict) (expl : List Char)
    (h : analyze_block detector groq text = Outcome.done lang v expl) :
    lang ≠ "Not enough text".toList := by
  unfold analyze_block at h
  by_cases hv : is_valid_news text = false
  · rw [if_pos hv] at h
    exact Outcome.noConfusion h
  · rw [if_neg hv] at h
    have hvalid : is_valid_news text = true := by
      cases hiv : is_valid_news text with
      | false => exact absurd hiv hv
      | true => rfl
    have h5 : 5 ≤ (splitWS text).length := by
      have := (is_valid_news_iff text).mp hvalid
      rw [splitWS_pyStrip] at this
      exact this
    cases hg : groq text with
    | error e =>
      rw [hg] at h
      exact Outcome.noConfusion h
    | ok result =>
      rw [hg] at h
      have hlang : detect_language_safe detector text = lang := by
        injection h
      rw [← hlang]
      exact detect_language_ne_insufficient detector text (by omega)

/-- Witness for C10 at a concrete five-token English input. -/
theorem done_language_not_insufficient_witness :
    "English".toList ≠ "Not enough text".toList :=
  done_language_not_insufficient (fun _ => Except.ok "en".toList)
    (fun _ => Except.ok "FINAL VERDICT: REAL".toList)
    "the sky is blue today".toList "English".toList Verdict.Real
    "FINAL VERDICT: REAL".toList rfl

end App

namespace App

/-- C5: the URL extractor returns the empty string on a raised network
exception and on any non-200 status code (and, having codomain
`List Char`, never raises). -/
theorem url_extraction_failure (fetch : List Char → Except Unit HttpResponse)
    (url : List Char) :
    (∀ e, fetch url = Except.error e → extract_text_from_url fetch url = []) ∧
    (∀ r, fetch url = Except.ok r → r.status_code ≠ 200 →
      extract_text_from_url fetch url = []) := by
  constructor
  · intro e he
    unfold extract_text_from_url
    rw [he]
  · intro r hr hs
    unfold extract_text_from_url
    rw [hr]
    show (if r.status_code ≠ 200 then _ else _) = _
    rw [if_pos hs]

/-- Witness for C5: a 404 response and a network exception both degrade to
the empty string. -/
theorem url_extraction_failure_witness :
    extract_text_from_url (fun _ => Except.ok ⟨404, exampleDoc⟩)
        "u".toList = [] ∧
      extract_text_from_url (fun _ => Except.error ()) "u".toList = [] :=
  ⟨(url_extraction_failure (fun _ => Except.ok ⟨404, exampleDoc⟩)
      "u".toList).2 ⟨404, exampleDoc⟩ rfl (by decide),
   (url_extraction_failure (fun _ => Except.error ()) "u".toList).1 () rfl⟩

/-- On a 200 response the extractor is the cleanup pipeline applied to the
parsed body. -/
theorem extract_text_from_url_ok (fetch : List Char → Except Unit HttpResponse)
    (url : List Char) (r : HttpResponse) (hr : fetch url = Except.ok r)
    (hs : r.status_code = 200) :
    extract_text_from_url fetch url =
      (joinSpace (splitWS (getTextList
        (decomposeTagsList badTags [r.body])))).take 4000 := by
  unfold extract_text_from_url
  rw [hr]
  show (if r.status_code ≠ 200 then _ else _) = _
  rw [if_neg (by simp [hs])]

/-- C6: on a status-200 fetch the extracted text is at most 4000
characters, every whitespace character in it is a single space and no two
adjacent characters are both whitespace (whitespace runs collapsed); on
the specification's concrete document
`<html><script>x</script><p>Hello World</p></html>` the output is exactly
"Hello World", so the script content "x" does not appear. -/
theorem url_extraction_success_shape :
    (∀ (fetch : List Char → Except Unit HttpResponse) (url : List Char)
        (r : HttpResponse), fetch url = Except.ok r → r.status_code = 200 →
      (extract_text_from_url fetch url).length ≤ 4000 ∧
        (∀ c ∈ extract_text_from_url fetch url,
          c.isWhitespace = true → c = ' ') ∧
        List.Chain' notBothWS (extract_text_from_url fetch url)) ∧
    extract_text_from_url (fun _ => Except.ok ⟨200, exampleDoc⟩)
        "u".toList = "Hello World".toList ∧
    'x' ∉ extract_text_from_url (fun _ => Except.ok ⟨200, exampleDoc⟩)
        "u".toList := by
  refine ⟨?_, by decide, by decide⟩
  intro fetch url r hr hs
  rw [extract_text_from_url_ok fetch url r hr hs]
  set body := getTextList (decomposeTagsList badTags [r.body]) with hbody
  have htoks := splitWS_tokens body
  refine ⟨?_, ?_, ?_⟩
  · rw [List.length_take]
    omega
  · intro c hc hw
    have hc2 : c ∈ joinSpace (splitWS body) := List.mem_of_mem_take hc
    rcases mem_joinSpace c (splitWS body) hc2 with h | ⟨t, ht, hct⟩
    · exact h
    · have := (htoks t ht).2 c hct
      rw [this] at hw
      exact absurd hw (by simp)
  · exact (chain'_joinSpace (splitWS body) htoks).take 4000

/-- Witness for C6 at the concrete 200-status fetch of the example
document. -/
theorem url_extraction_success_shape_witness :
    (extract_text_from_url (fun _ => Except.ok ⟨200, exampleDoc⟩)
        "u".toList).length ≤ 4000 ∧
      (∀ c ∈ extract_text_from_url (fun _ => Except.ok ⟨200, exampleDoc⟩)
          "u".toList, c.isWhitespace = true → c = ' ') ∧
      List.Chain' notBothWS
        (extract_text_from_url (fun _ => Except.ok ⟨200, exampleDoc⟩)
          "u".toList) :=
  url_extraction_success_shape.1 (fun _ => Except.ok ⟨200, exampleDoc⟩)
    "u".toList ⟨200, exampleDoc⟩ rfl rfl

/-- Counterexample for C7 as stated: with an OCR engine that raises on an
unreadable image, `extract_text_from_image` evaluates to the raised
exception, not to a string — the Python function has no exception
handler. -/
theorem image_extraction_raises :
    extract_text_from_image
      (fun d => d.map (fun row => row.map (fun _ => 0)))
      (fun _ => Except.error ()) (ImgArray.gray [[0]]) = Except.error () :=
  rfl

/-- C7 (amended): the text strategy is the identity and the URL strategy
degrades every fetch exception to the empty string (neither can raise),
but the image strategy performs no exception handling and propagates an
OCR-engine failure to its caller unchanged. -/
theorem extraction_failure_policy :
    (∀ (fetch : List Char → Except Unit HttpResponse) (url : List Char) e,
      fetch url = Except.error e → extract_text_from_url fetch url = []) ∧
    (∀ t, extract_text_from_text t = t) ∧
    (∀ (cvtColor : List (List (Nat × Nat × Nat)) → List (List Nat))
        (image_to_string : List (List Nat) → Except Unit (List Char))
        (image : ImgArray) (e : Unit),
      image_to_string (toGrayArr cvtColor image) = Except.error e →
        extract_text_from_image cvtColor image_to_string image =
          Except.error e) := by
  refine ⟨?_, fun t => rfl, ?_⟩
  · intro fetch url e he
    unfold extract_text_from_url
    rw [he]
  · intro cvtColor image_to_string image e he
    unfold extract_text_from_image
    rw [he]

/-- Witness for the amended C7 at concrete strategy inputs. -/
theorem extraction_failure_policy_witness :
    extract_text_from_url (fun _ => Except.error ()) "v".toList = [] ∧
      extract_text_from_text "some pasted text".toList =
        "some pasted text".toList ∧
      extract_text_from_image
          (fun d => d.map (fun row => row.map (fun _ => 0)))
          (fun _ => Except.error ()) (ImgArray.rgb [[(1, 2, 3)]]) =
        Except.error () :=
  ⟨extraction_failure_policy.1 (fun _ => Except.error ()) "v".toList () rfl,
   extraction_failure_policy.2.1 "some pasted text".toList,
   extraction_failure_policy.2.2 (fun d => d.map (fun row => row.map (fun _ => 0)))
     (fun _ => Except.error ()) (ImgArray.rgb [[(1, 2, 3)]]) () rfl⟩

end App
